import Mathlib

/-!
Verification development for the cclogviewer entry-hierarchy reconstruction
engine (package `processor`).  Go code is shallowly embedded: Go strings are
lists of characters, Go slices are lists, the `entryMap` (a Go map keyed by
entry UUID) is a list of nodes together with an explicit enumeration order,
because the order in which a Go `for range` loop visits a map is unspecified
by the language.  Pure helper functions are translated directly from the
source file of the processor package.
-/

/-- Go strings, modelled as lists of characters. -/
abbrev GoStr := List Char

/-- Embeds Go `strings.Index`: index of the first occurrence of `pat` in `s`,
`none` for Go's `-1`. -/
def strFind : GoStr → GoStr → Option Nat
  | [], pat => if pat.isEmpty then some 0 else none
  | s@(_ :: t), pat => if pat.isPrefixOf s then some 0 else (strFind t pat).map (· + 1)

/-- Embeds Go `strings.Contains` (`strings.Index(s, pat) >= 0`). -/
def strContains (s pat : GoStr) : Bool :=
  (strFind s pat).isSome

/-- Values of the repository's `constants` package (the package itself is not
under src; the values are taken from the log format the README documents and
are only used as opaque tokens by the claims): role string of user entries. -/
def roleUser : GoStr := ("user").toList

/-- Role string of assistant entries (see `roleUser`). -/
def roleAssistant : GoStr := ("assistant").toList

/-- Name of the sub-agent spawning tool (`constants.TaskToolName`). -/
def taskToolName : GoStr := ("Task").toList

/-- Tag name of captured command output (`constants.TagCommandStdout`). -/
def tagCommandStdout : GoStr := ("local-command-stdout").toList

/-- Content-block type string of tool results (`constants.TypeToolResult`). -/
def typeToolResult : GoStr := ("tool_result").toList

/-- Embeds `extractXMLContent` of the processor source: the text between the
first `<tag>` and the first `</tag>` that follows it, `[]` when either tag is
missing. -/
def extractXMLContent (text tag : GoStr) : GoStr :=
  let startTag := '<' :: (tag ++ ['>'])
  let endTag := '<' :: '/' :: (tag ++ ['>'])
  match strFind text startTag with
  | none => []
  | some i =>
    let s := i + startTag.length
    match strFind (text.drop s) endTag with
    | none => []
    | some e => (text.drop s).take e

/-- Embeds `models.TokenMetrics`. -/
structure TokenMetrics where
  tokenCount : Nat := 0
  totalTokens : Nat := 0
  inputTokens : Nat := 0
  outputTokens : Nat := 0
  cacheReadTokens : Nat := 0
  cacheCreationTokens : Nat := 0
  deriving DecidableEq

/-- Embeds `models.CommandInfo`. -/
structure CommandInfo where
  isCommandMessage : Bool := false
  commandName : GoStr := []
  commandArgs : GoStr := []
  commandOutput : GoStr := []
  deriving DecidableEq

/-- The scalar fields of `models.ProcessedEntry` (everything except the
recursive `Children`, `ToolCalls` references). -/
structure EntryData where
  uuid : GoStr := []
  parentUUID : GoStr := []
  type : GoStr := []
  timestamp : GoStr := []
  rawTimestamp : GoStr := []
  role : GoStr := []
  content : GoStr := []
  agentID : GoStr := []
  depth : Nat := 0
  isToolResult : Bool := false
  toolResultID : GoStr := []
  tokens : TokenMetrics := {}
  cmd : CommandInfo := {}
  isSidechain : Bool := false
  isError : Bool := false
  isCaveatMessage : Bool := false
  deriving DecidableEq

/-- The scalar fields of `models.ToolCall`.  The struct's declaration file is
not under src; its fields are reconstructed from every use in the processor
source (`ID`, `Name`, `Input`, `Result`, `TaskEntries`, `HasMissingResult`,
`HasMissingSidechain`). -/
structure ToolCallData where
  id : GoStr := []
  name : GoStr := []
  input : GoStr := []
  hasMissingResult : Bool := false
  hasMissingSidechain : Bool := false
  deriving DecidableEq

mutual
/-- `models.ProcessedEntry` in tree form: the pointer graph rooted at an entry,
materialised (children and tool calls carried in place). -/
inductive ProcessedEntry : Type where
  | mk (data : EntryData) (toolCalls : List ToolCall) (children : List ProcessedEntry) :
      ProcessedEntry
/-- `models.ToolCall` in tree form (see `ProcessedEntry`). -/
inductive ToolCall : Type where
  | mk (data : ToolCallData) (result : Option ProcessedEntry) (taskEntries : List ProcessedEntry) :
      ToolCall
end

def ProcessedEntry.data : ProcessedEntry → EntryData
  | .mk d _ _ => d

def ProcessedEntry.toolCalls : ProcessedEntry → List ToolCall
  | .mk _ tcs _ => tcs

def ProcessedEntry.children : ProcessedEntry → List ProcessedEntry
  | .mk _ _ ch => ch

def ToolCall.data : ToolCall → ToolCallData
  | .mk d _ _ => d

def ToolCall.result : ToolCall → Option ProcessedEntry
  | .mk _ r _ => r

def ToolCall.taskEntries : ToolCall → List ProcessedEntry
  | .mk _ _ t => t

/-- The token formula of `calculateTokensForEntry`: total := input + cacheRead
+ cacheCreation (output tokens not included). -/
def setTotal (d : EntryData) : EntryData :=
  { d with tokens :=
    { d.tokens with totalTokens :=
        d.tokens.inputTokens + d.tokens.cacheReadTokens + d.tokens.cacheCreationTokens } }

mutual
/-- Embeds `calculateTokensForEntry` of the processor source: sets the entry's
total, sets each tool call's attached result's total from the result's own
fields (without recursing into the result), and recurses into each tool
call's `TaskEntries`.  Children are not visited, exactly as in the source. -/
def calculateTokensForEntry : ProcessedEntry → ProcessedEntry
  | .mk d tcs ch => .mk (setTotal d) (calcToolCallList tcs) ch
def calcToolCallList : List ToolCall → List ToolCall
  | [] => []
  | tc :: rest => calcToolCall tc :: calcToolCallList rest
def calcToolCall : ToolCall → ToolCall
  | .mk td res tes => .mk td (calcResult res) (calcEntryList tes)
def calcResult : Option ProcessedEntry → Option ProcessedEntry
  | none => none
  | some (.mk d tcs ch) => some (.mk (setTotal d) tcs ch)
def calcEntryList : List ProcessedEntry → List ProcessedEntry
  | [] => []
  | e :: rest => calculateTokensForEntry e :: calcEntryList rest
end

/-- Checks the token invariant on one entry's scalar data. -/
def entryTotalOk (d : EntryData) : Bool :=
  d.tokens.totalTokens ==
    d.tokens.inputTokens + d.tokens.cacheReadTokens + d.tokens.cacheCreationTokens

mutual
/-- Decidable check that the token invariant holds on every entry the
aggregation pass reaches: the entry itself, each tool call's attached result,
and every entry of each tool call's `TaskEntries` forest, recursively. -/
def tokensOk : ProcessedEntry → Bool
  | .mk d tcs _ => entryTotalOk d && tokensOkToolCalls tcs
def tokensOkToolCalls : List ToolCall → Bool
  | [] => true
  | tc :: rest => tokensOkToolCall tc && tokensOkToolCalls rest
def tokensOkToolCall : ToolCall → Bool
  | .mk _ res tes =>
    (match res with
     | none => true
     | some r => entryTotalOk r.data) && tokensOkEntryList tes
def tokensOkEntryList : List ProcessedEntry → Bool
  | [] => true
  | e :: rest => tokensOk e && tokensOkEntryList rest
end

/-- The flag update of `checkMissingToolResults` on one tool call's data:
`HasMissingResult` is set when the result is missing, `HasMissingSidechain`
when a Task tool call has no task entries. -/
def checkFlags (td : ToolCallData) (resMissing taskEmpty : Bool) : ToolCallData :=
  let t1 := if resMissing then { td with hasMissingResult := true } else td
  if t1.name == taskToolName && taskEmpty then { t1 with hasMissingSidechain := true } else t1

mutual
/-- Embeds `checkMissingToolResults` of the processor source: flags each tool
call, recurses into its `TaskEntries`, then recurses into the children. -/
def checkMissingToolResults : ProcessedEntry → ProcessedEntry
  | .mk d tcs ch => .mk d (checkToolCallList tcs) (checkChildList ch)
def checkToolCallList : List ToolCall → List ToolCall
  | [] => []
  | tc :: rest => checkToolCall tc :: checkToolCallList rest
def checkToolCall : ToolCall → ToolCall
  | .mk td res tes => .mk (checkFlags td res.isNone tes.isEmpty) res (checkTaskList tes)
def checkTaskList : List ProcessedEntry → List ProcessedEntry
  | [] => []
  | e :: rest => checkMissingToolResults e :: checkTaskList rest
def checkChildList : List ProcessedEntry → List ProcessedEntry
  | [] => []
  | e :: rest => checkMissingToolResults e :: checkChildList rest
end

/-- Decidable check of the flag invariant on one tool call: a missing result
implies `hasMissingResult`, and a Task call without task entries implies
`hasMissingSidechain`. -/
def toolCallFlagsOk (td : ToolCallData) (res : Option ProcessedEntry)
    (tes : List ProcessedEntry) : Bool :=
  (res.isSome || td.hasMissingResult) &&
  (!(td.name == taskToolName && tes.isEmpty) || td.hasMissingSidechain)

mutual
/-- Decidable check that the flag invariant holds everywhere the flagging pass
reaches: the entry's tool calls, each tool call's task entries recursively,
and the children recursively. -/
def flagsOk : ProcessedEntry → Bool
  | .mk _ tcs ch => flagsOkToolCalls tcs && flagsOkEntryList ch
def flagsOkToolCalls : List ToolCall → Bool
  | [] => true
  | tc :: rest => flagsOkToolCall tc && flagsOkToolCalls rest
def flagsOkToolCall : ToolCall → Bool
  | .mk td res tes => toolCallFlagsOk td res tes && flagsOkEntryList tes
def flagsOkEntryList : List ProcessedEntry → Bool
  | [] => true
  | e :: rest => flagsOk e && flagsOkEntryList rest
end

/-- Replaces an entry's content, keeping every other field (models the Go
assignment `next.Content = ""`). -/
def setContent (e : ProcessedEntry) (c : GoStr) : ProcessedEntry :=
  match e with
  | .mk d tcs ch => .mk { d with content := c } tcs ch

/-- Replaces an entry's captured command output (models the Go assignment
`current.CommandOutput = ...`). -/
def setCommandOutput (e : ProcessedEntry) (v : GoStr) : ProcessedEntry :=
  match e with
  | .mk d tcs ch => .mk { d with cmd := { d.cmd with commandOutput := v } } tcs ch

/-- Embeds `isCommandWithStdout` of the processor source. -/
def isCommandWithStdout (current next : ProcessedEntry) : Bool :=
  current.data.cmd.isCommandMessage &&
  next.data.role == roleUser &&
  strContains next.data.content ('<' :: (tagCommandStdout ++ ['>']))

/-- The adjacent-pair loop of `linkCommandOutputs`: `cur` is the entry at the
loop index (carrying any mutation made by the previous iteration), the list
argument holds the entries after it.  The Go loop mutates the pair in place;
the recursion threads the mutated `next` into the following pair exactly as
the loop does. -/
def linkLoop (cur : ProcessedEntry) : List ProcessedEntry → List ProcessedEntry
  | [] => [cur]
  | next :: rest =>
    if isCommandWithStdout cur next then
      setCommandOutput cur (extractXMLContent next.data.content tagCommandStdout) ::
        linkLoop (setContent next []) rest
    else
      cur :: linkLoop next rest

/-- Embeds `linkCommandOutputs` of the processor source. -/
def linkCommandOutputs : List ProcessedEntry → List ProcessedEntry
  | [] => []
  | cur :: rest => linkLoop cur rest

/-- Default entry used by positional (`getD`) indexing in statements. -/
def defaultEntry : ProcessedEntry := .mk {} [] []

/-- One `models.ToolCall` as stored in the identifier-keyed entry map:
`Result` and `TaskEntries` are Go pointers into the map, modelled as UUID
references. -/
structure NodeToolCall where
  data : ToolCallData := {}
  result : Option GoStr := none
  taskEntries : List GoStr := []
  deriving DecidableEq

/-- One `models.ProcessedEntry` as stored in the identifier-keyed entry map:
`Children` are Go pointers into the map, modelled as UUID references. -/
structure Node where
  data : EntryData := {}
  toolCalls : List NodeToolCall := []
  children : List GoStr := []
  deriving DecidableEq

/-- The identifier-keyed map `entryMap` (plus the shared entry objects it
points to).  A Go `for range` loop over the map visits it in an order the
language does not specify; loops therefore take the enumeration order as an
explicit argument (`ord`, a list of UUIDs). -/
abbrev Heap := List Node

/-- Dereferences a UUID (Go map lookup / pointer dereference). -/
def lookup (h : Heap) (u : GoStr) : Option Node :=
  h.find? (fun n => n.data.uuid == u)

/-- In-place mutation of the entry with the given UUID. -/
def updateNode (h : Heap) (u : GoStr) (f : Node → Node) : Heap :=
  h.map fun n => if n.data.uuid == u then f n else n

/-- One `for range entryMap` loop: the map's entries in enumeration order
`ord`. -/
def iterMap (h : Heap) (ord : List GoStr) : List Node :=
  ord.filterMap (lookup h)

/-- Embeds the `attachedToolResults` scan at the top of
`collectSidechainEntries`: `u` is in the set iff some sidechain entry has a
tool call whose attached result is the entry `u`. -/
def isAttachedToolResult (h : Heap) (ord : List GoStr) (u : GoStr) : Bool :=
  (iterMap h ord).any fun n =>
    n.data.isSidechain && n.toolCalls.any (fun tc => tc.result == some u)

/-- The per-child skip test of `buildTree`: tool results already attached to
some tool call are left out of the output. -/
def childSkip (h : Heap) (att : GoStr → Bool) (c : GoStr) : Bool :=
  match lookup h c with
  | none => false
  | some cn => cn.data.isToolResult && att cn.data.uuid

/-- Embeds the recursive closure `buildTree` of `collectSidechainEntries`,
written with an explicit depth-first worklist so that the function is
structurally recursive on `fuel` (the Go recursion is unbounded and diverges
on cyclic parent links; one unit of fuel is spent per visited entry, so any
`fuel` larger than the number of entries is enough on acyclic input).  Each
visit appends the entry to the result unless its skip flag is set, discovers
children by scanning the whole map for sidechain entries whose parent UUID
matches, appends them to the entry's `Children` in place, and visits every
child — even below a skipped entry — with the child's own skip flag. -/
def buildTreeLoop (ord : List GoStr) (att : GoStr → Bool) :
    Nat → Heap → List (GoStr × Bool) → Heap × List GoStr
  | 0, h, _ => (h, [])
  | _ + 1, h, [] => (h, [])
  | fuel + 1, h, (u, skip) :: stack =>
    match lookup h u with
    | none => buildTreeLoop ord att fuel h stack
    | some n =>
      let discovered := ((iterMap h ord).filter
        (fun e => e.data.parentUUID == u && e.data.isSidechain)).map (fun e => e.data.uuid)
      let kids := n.children ++ discovered
      let h1 := updateNode h u (fun m => { m with children := kids })
      let r := buildTreeLoop ord att fuel h1 (kids.map (fun c => (c, childSkip h1 att c)) ++ stack)
      (r.1, (if skip then [] else [u]) ++ r.2)

/-- The root call `buildTree(root, false)` of `collectSidechainEntries`. -/
def buildTree (ord : List GoStr) (att : GoStr → Bool) (fuel : Nat) (h : Heap)
    (root : GoStr) : Heap × List GoStr :=
  buildTreeLoop ord att fuel h [(root, false)]

/-- The deduplication (`collected` set) of the fallback path of
`collectSidechainEntries`: keeps the first entry for each UUID. -/
def dedupByUUID : List GoStr → List Node → List Node
  | _, [] => []
  | seen, n :: rest =>
    if seen.contains n.data.uuid then dedupByUUID seen rest
    else n :: dedupByUUID (n.data.uuid :: seen) rest

/-- Ordering used by the fallback's `sort.Slice` call: ascending raw
timestamp. -/
def nodeLe (a b : Node) : Prop :=
  a.data.rawTimestamp ≤ b.data.rawTimestamp

instance : DecidableRel nodeLe := fun a b =>
  inferInstanceAs (Decidable (a.data.rawTimestamp ≤ b.data.rawTimestamp))

/-- Models the fallback's `sort.Slice(result, ...RawTimestamp < ...)`:
`sort.Slice` promises some ordering of the slice that is sorted by the given
comparison (the algorithm is unspecified and unstable); `insertionSort` is
one such ordering. -/
def sortByRawTimestamp (l : List Node) : List Node :=
  l.insertionSort nodeLe

/-- Embeds `collectSidechainEntries` of the processor source.  The returned
list holds UUID references (Go returns `[]*models.ProcessedEntry`); the
returned heap carries the `Children` mutations made by `buildTree`. -/
def collectSidechainEntries (fuel : Nat) (h : Heap) (ord : List GoStr) (root : GoStr) :
    Heap × List GoStr :=
  match lookup h root with
  | none => (h, [])
  | some rootN =>
    let att := fun u => isAttachedToolResult h ord u
    let r := buildTree ord att fuel h root
    let h1 := r.1
    if rootN.data.agentID.isEmpty then r
    else
      let expected := ((iterMap h1 ord).filter
        (fun e => e.data.agentID == rootN.data.agentID && e.data.isSidechain)).length
      if r.2.length < expected then
        let candidates := (iterMap h1 ord).filter fun e =>
          e.data.agentID == rootN.data.agentID && e.data.isSidechain &&
          !(e.data.isToolResult && att e.data.uuid)
        (h1, (sortByRawTimestamp (dedupByUUID [] candidates)).map (fun n => n.data.uuid))
      else r

/-- Forgets an entry's child references: `buildTree` mutates nothing else. -/
def stripChildren (n : Node) : Node := { n with children := [] }

/-- Scalar-data form of the fallback's agent test: same agent identifier and
sidechain flag. -/
def agentSidechain (agent : GoStr) (d : EntryData) : Bool :=
  d.agentID == agent && d.isSidechain

/-- Scalar-data form of the fallback's skip test: a tool result already
attached to some tool call (stated against the map `h`). -/
def consumedToolResult (h : Heap) (ord : List GoStr) (d : EntryData) : Bool :=
  d.isToolResult && isAttachedToolResult h ord d.uuid

/-- Scalar-data form of the fallback's keep condition. -/
def fallbackKeeps (h : Heap) (ord : List GoStr) (agent : GoStr) (d : EntryData) : Bool :=
  agentSidechain agent d && !(consumedToolResult h ord d)


/-- Clock fields of a timestamp accepted by Go's `time.Parse` with the
RFC 3339 layout (the parser below models that stdlib function; only the
wall-clock fields matter to the display format `15:04:05`, which Go renders
in the parsed offset, i.e. with the hour/minute/second digits as written). -/
structure ParsedTime where
  year : Nat := 0
  month : Nat := 0
  day : Nat := 0
  hour : Nat := 0
  minute : Nat := 0
  second : Nat := 0
  deriving DecidableEq

def digitVal (c : Char) : Nat := c.toNat - ('0').toNat

def twoDigitNum (a b : Char) : Nat := 10 * digitVal a + digitVal b

def isLeapYear (y : Nat) : Bool := (y % 4 == 0 && y % 100 != 0) || (y % 400 == 0)

def daysInMonth (y m : Nat) : Nat :=
  if m == 2 then (if isLeapYear y then 29 else 28)
  else if m == 4 || m == 6 || m == 9 || m == 11 then 30
  else 31

/-- Valid RFC 3339 numeric or Zulu UTC offset (`Z` or `±hh:mm`). -/
def validOffset (s : GoStr) : Bool :=
  match s with
  | ['Z'] => true
  | [sgn, h1, h2, ':', m1, m2] =>
    (sgn == '+' || sgn == '-') && h1.isDigit && h2.isDigit && m1.isDigit && m2.isDigit &&
      decide (twoDigitNum h1 h2 ≤ 23) && decide (twoDigitNum m1 m2 ≤ 59)
  | _ => false

/-- Consumes an optional fractional-second part (a dot followed by at least
one digit). -/
def dropFraction (s : GoStr) : Option GoStr :=
  match s with
  | '.' :: rest =>
    if (rest.takeWhile Char.isDigit).isEmpty then none
    else some (rest.dropWhile Char.isDigit)
  | _ => some s

/-- Models Go's `time.Parse(time.RFC3339, ·)` (stdlib, external to the
repository): accepts `YYYY-MM-DDThh:mm:ss[.fff](Z|±hh:mm)` with calendar and
clock ranges validated, and fails on anything else. -/
def parseRFC3339 (s : GoStr) : Option ParsedTime :=
  match s with
  | y1 :: y2 :: y3 :: y4 :: '-' :: mo1 :: mo2 :: '-' :: d1 :: d2 :: 'T' ::
      h1 :: h2 :: ':' :: mi1 :: mi2 :: ':' :: s1 :: s2 :: rest =>
    if (y1.isDigit && y2.isDigit && y3.isDigit && y4.isDigit && mo1.isDigit && mo2.isDigit &&
        d1.isDigit && d2.isDigit && h1.isDigit && h2.isDigit && mi1.isDigit && mi2.isDigit &&
        s1.isDigit && s2.isDigit) then
      let year := 1000 * digitVal y1 + 100 * digitVal y2 + 10 * digitVal y3 + digitVal y4
      let month := twoDigitNum mo1 mo2
      let day := twoDigitNum d1 d2
      let hour := twoDigitNum h1 h2
      let minute := twoDigitNum mi1 mi2
      let second := twoDigitNum s1 s2
      match dropFraction rest with
      | none => none
      | some rest2 =>
        if validOffset rest2 = true ∧ 1 ≤ month ∧ month ≤ 12 ∧ 1 ≤ day ∧
            day ≤ daysInMonth year month ∧ hour ≤ 23 ∧ minute ≤ 59 ∧ second ≤ 59 then
          some { year := year, month := month, day := day,
                 hour := hour, minute := minute, second := second }
        else none
    else none
  | _ => none

/-- Two zero-padded decimal digits, as Go's `Format` renders clock fields. -/
def twoDigitStr (n : Nat) : GoStr :=
  [Char.ofNat (48 + n / 10), Char.ofNat (48 + n % 10)]

/-- The display form `t.Format("15:04:05")`: the wall clock `hh:mm:ss`. -/
def formatHMS (t : ParsedTime) : GoStr :=
  twoDigitStr t.hour ++ ':' :: (twoDigitStr t.minute ++ ':' :: twoDigitStr t.second)

/-- Embeds `formatTimestamp` of the processor source: reformat to the display
form when the string parses as RFC 3339, otherwise return the input
unchanged. -/
def formatTimestamp (ts : GoStr) : GoStr :=
  match parseRFC3339 ts with
  | none => ts
  | some t => formatHMS t

/-- The usage block of a message payload (input/output/cache token counts). -/
structure Usage where
  inputTokens : Nat := 0
  outputTokens : Nat := 0
  cacheReadTokens : Nat := 0
  cacheCreationTokens : Nat := 0
  deriving DecidableEq

/-- One typed content block of a message payload (§6 of the spec: only text,
tool-use and tool-result blocks are relevant). -/
inductive ContentBlock : Type where
  | text (s : GoStr)
  | toolUse (id name input : GoStr)
  | toolResult (toolUseID : GoStr) (content : GoStr)
  deriving DecidableEq

/-- A message's content: a plain string or a list of typed blocks (§6). -/
inductive MessageContent : Type where
  | str (s : GoStr)
  | blocks (bs : List ContentBlock)
  deriving DecidableEq

/-- The parsed message payload.  `processEntry` unmarshals the raw payload
into untyped maps; the embedding carries the already-parsed form. -/
structure Message where
  role : GoStr := []
  content : MessageContent := .str []
  usage : Option Usage := none
  deriving DecidableEq

/-- Embeds `models.LogEntry` (the fields the processor reads).  `message`
is the raw payload: `none` models a payload on which `json.Unmarshal` fails,
`some` the parsed form. -/
structure LogEntry where
  parentUUID : Option GoStr := none
  isSidechain : Bool := false
  userType : GoStr := []
  sessionID : GoStr := []
  type : GoStr := []
  message : Option Message := none
  uuid : GoStr := []
  timestamp : GoStr := []
  agentID : GoStr := []
  deriving DecidableEq

/-- Modelled from the spec: `EstimateTokens` is not under src; §4.1/§7 say a
token count is estimated from the text's length, so the estimate is the
length divided by a chars-per-token constant. -/
def charsPerToken : Nat := 4

/-- Modelled from the spec (see `charsPerToken`). -/
def estimateTokens (s : GoStr) : Nat := s.length / charsPerToken

/-- The text blocks of a block list, in order. -/
def textBlocks : List ContentBlock → List GoStr
  | [] => []
  | .text s :: rest => s :: textBlocks rest
  | _ :: rest => textBlocks rest

/-- Modelled from the spec: the rendered textual content of a message (§2:
the transformer extracts "textual content"; a plain string passes through,
text blocks are joined). -/
def extractTextContent : MessageContent → GoStr
  | .str s => s
  | .blocks bs => List.intercalate ['\n'] (textBlocks bs)

/-- The blocks of a content value (a plain string has none). -/
def blocksOf : MessageContent → List ContentBlock
  | .str _ => []
  | .blocks bs => bs

/-- Embeds `isToolResult` of the processor source over the structured block
model: the first content block has type tool_result. -/
def isToolResultMsg : MessageContent → Bool
  | .blocks (.toolResult _ _ :: _) => true
  | _ => false

/-- The correlation identifier carried by a tool-result message (first
block's tool-use identifier; empty when not a tool result). -/
def msgToolResultID : MessageContent → GoStr
  | .blocks (.toolResult tid _ :: _) => tid
  | _ => []

/-- The tool calls embedded in a block list, in order. -/
def msgToolCalls : List ContentBlock → List NodeToolCall
  | [] => []
  | .toolUse i n inp :: rest => { data := { id := i, name := n, input := inp } } :: msgToolCalls rest
  | _ :: rest => msgToolCalls rest

/-- Tag marking a local command message (from the log format; the setter of
`IsCommandMessage` is not under src). -/
def tagCommandName : GoStr := ("command-name").toList

/-- Modelled from the spec: `processMessage` (the message handler chain) is
not under src.  Per §4.1/§6 and the model types above it extracts the role,
the textual content, the embedded tool calls, the tool-result marker (as in
the source's `isToolResult`) with its correlation identifier, and the
local-command flag. -/
def processMessage (p : Node) (m : Message) : Node :=
  let content := extractTextContent m.content
  { p with
    data := { p.data with
      role := m.role,
      content := content,
      isToolResult := isToolResultMsg m.content,
      toolResultID := msgToolResultID m.content,
      cmd := { p.data.cmd with
        isCommandMessage := strContains content ('<' :: (tagCommandName ++ ['>'])) } },
    toolCalls := msgToolCalls (blocksOf m.content) }

/-- Modelled from the spec: the token processor (`NewTokenProcessor`, not
under src) copies the usage block's counts and sets the per-message token
count — output tokens for an assistant message, a length estimate otherwise
(`models.TokenMetrics` documents exactly this split). -/
def processTokens (p : Node) (m : Message) : Node :=
  match m.usage with
  | some u =>
    { p with data := { p.data with tokens := { p.data.tokens with
        inputTokens := u.inputTokens,
        outputTokens := u.outputTokens,
        cacheReadTokens := u.cacheReadTokens,
        cacheCreationTokens := u.cacheCreationTokens,
        tokenCount := if p.data.role == roleAssistant then u.outputTokens
                      else estimateTokens p.data.content } } }
  | none =>
    { p with data := { p.data with tokens := { p.data.tokens with
        tokenCount := estimateTokens p.data.content } } }

/-- Embeds `processEntry` of the processor source: copies the record's scalar
fields, formats the timestamp; when the payload parses, runs the message
handlers and the token processor; when `json.Unmarshal` fails (`none`), the
content stays empty and the token count is estimated from the entry's
`Content` field — which is still empty at that point in the source. -/
def processEntry (entry : LogEntry) : Node :=
  let processed : Node := { data := {
      uuid := entry.uuid,
      isSidechain := entry.isSidechain,
      type := entry.type,
      timestamp := formatTimestamp entry.timestamp,
      rawTimestamp := entry.timestamp,
      agentID := entry.agentID,
      parentUUID := (match entry.parentUUID with | some p => p | none => []) } }
  match entry.message with
  | some m => processTokens (processMessage processed m) m
  | none => { processed with data := { processed.data with tokens :=
      { processed.data.tokens with tokenCount := estimateTokens processed.data.content } } }

/-- Phase 1 of `ProcessEntries` (`processAllEntries`, not under src; §2: one
processed entry per raw record, kept in input order and keyed by UUID). -/
def processAllEntries (entries : List LogEntry) : Heap :=
  entries.map processEntry

/-- Modelled from the spec (§4.2): forward scan for the first not-yet-consumed
tool-result entry whose correlation identifier matches. -/
def findResult (id : GoStr) (consumed : List GoStr) : List Node → Option GoStr
  | [] => none
  | n :: rest =>
    if n.data.isToolResult && n.data.toolResultID == id && !(consumed.contains n.data.uuid)
    then some n.data.uuid
    else findResult id consumed rest

/-- Modelled from the spec (§4.2): matches each of one entry's tool calls
against the entries after it, marking matched results as consumed. -/
def matchEntryToolCalls (later : List Node) :
    List NodeToolCall → List GoStr → List NodeToolCall × List GoStr
  | [], consumed => ([], consumed)
  | tc :: rest, consumed =>
    match findResult tc.data.id consumed later with
    | some ruuid =>
      let r := matchEntryToolCalls later rest (ruuid :: consumed)
      ({ tc with result := some ruuid } :: r.1, r.2)
    | none =>
      let r := matchEntryToolCalls later rest consumed
      (tc :: r.1, r.2)

/-- Modelled from the spec (§4.2): the matcher's pass over the entry sequence
in input order. -/
def matchLoop : List Node → List GoStr → List Node × List GoStr
  | [], consumed => ([], consumed)
  | n :: rest, consumed =>
    let r := matchEntryToolCalls rest n.toolCalls consumed
    let r2 := matchLoop rest r.2
    ({ n with toolCalls := r.1 } :: r2.1, r2.2)

/-- Modelled from the spec (§4.2): phase 2 of `ProcessEntries`
(`matchToolCallsWithResults`, not under src): pairs tool calls with their
result entries and returns the set of consumed result UUIDs. -/
def matchToolCallsWithResults (h : Heap) : Heap × List GoStr :=
  matchLoop h []

/-- Modelled from the spec (§4.3): a sidechain root is a sidechain-flagged
entry whose parent link does not lead to another sidechain entry. -/
def isSidechainRoot (h : Heap) (n : Node) : Bool :=
  n.data.isSidechain &&
    (match lookup h n.data.parentUUID with
     | none => true
     | some p => !p.data.isSidechain)

/-- The sidechain roots of the map, in input order (see `isSidechainRoot`). -/
def sidechainRoots (h : Heap) : List GoStr :=
  (h.filter (fun n => isSidechainRoot h n)).map (fun n => n.data.uuid)

/-- Modelled from the spec: the wiring of Task tool calls to sidechain roots
(`processSidechainConversations`, not under src) — each Task-named tool call
receives the reconciled forest of the next unassigned sidechain root, via the
source-translated `collectSidechainEntries`. -/
def assignTask (fuel : Nat) (ord : List GoStr) :
    List NodeToolCall → Heap → List GoStr → List NodeToolCall × Heap × List GoStr
  | [], h, roots => ([], h, roots)
  | tc :: rest, h, roots =>
    if tc.data.name == taskToolName then
      match roots with
      | [] =>
        let r := assignTask fuel ord rest h []
        (tc :: r.1, r.2.1, r.2.2)
      | root :: roots2 =>
        let c := collectSidechainEntries fuel h ord root
        let r := assignTask fuel ord rest c.1 roots2
        ({ tc with taskEntries := c.2 } :: r.1, r.2.1, r.2.2)
    else
      let r := assignTask fuel ord rest h roots
      (tc :: r.1, r.2.1, r.2.2)

/-- Modelled from the spec (§2 phase 3): walks the entries in input order and
reconciles each Task tool call's sidechain. -/
def processSidechainLoop (fuel : Nat) (ord : List GoStr) :
    List GoStr → Heap → List GoStr → Heap
  | [], h, _ => h
  | u :: us, h, roots =>
    match lookup h u with
    | none => processSidechainLoop fuel ord us h roots
    | some n =>
      let r := assignTask fuel ord n.toolCalls h roots
      let h2 := updateNode r.2.1 u (fun m => { m with toolCalls := r.1 })
      processSidechainLoop fuel ord us h2 r.2.2

/-- Modelled from the spec (§2 phase 3): `processSidechainConversations`. -/
def processSidechainConversations (fuel : Nat) (ord : List GoStr) (h : Heap) : Heap :=
  processSidechainLoop fuel ord (h.map (fun n => n.data.uuid)) h (sidechainRoots h)

/-- Modelled from the spec (§4.2/§6): `getRootEntries` (not under src) — the
displayed top level holds the non-sidechain entries whose ownership was not
transferred to a tool call, in input order. -/
def getRootEntries (h : Heap) (consumed : List GoStr) : List GoStr :=
  (h.filter (fun n => !n.data.isSidechain && !(consumed.contains n.data.uuid))).map
    (fun n => n.data.uuid)

/-- Materialises the pointer graph below an entry as a tree (the Go output is
a pointer forest; rendering observes it as this tree).  `fuel` bounds the
depth; any fuel above the map size is enough on acyclic reference graphs. -/
def materializeEntry (h : Heap) : Nat → GoStr → Option ProcessedEntry
  | 0, _ => none
  | fuel + 1, u =>
    match lookup h u with
    | none => none
    | some n =>
      some (.mk n.data
        (n.toolCalls.map (fun tc => .mk tc.data
          (match tc.result with
           | none => none
           | some ru => materializeEntry h fuel ru)
          (tc.taskEntries.filterMap (materializeEntry h fuel))))
        (n.children.filterMap (materializeEntry h fuel)))

mutual
/-- Modelled from the spec (§2 phase 7): `buildFinalHierarchy` (not under
src) — nests an entry under the first entry with the given UUID found in the
forest built so far, depth-first through children. -/
def attachEntry (pid : GoStr) (c : ProcessedEntry) : ProcessedEntry → Option ProcessedEntry
  | .mk d tcs ch =>
    if d.uuid == pid then some (.mk d tcs (ch ++ [c]))
    else
      match attachChildren pid c ch with
      | some ch2 => some (.mk d tcs ch2)
      | none => none
/-- The forest-level search of `attachEntry`. -/
def attachChildren (pid : GoStr) (c : ProcessedEntry) :
    List ProcessedEntry → Option (List ProcessedEntry)
  | [] => none
  | t :: rest =>
    match attachEntry pid c t with
    | some t2 => some (t2 :: rest)
    | none =>
      match attachChildren pid c rest with
      | some rest2 => some (t :: rest2)
      | none => none
end

/-- Modelled from the spec (§2 phase 7): nests each top-level entry under its
parent when the parent is displayed, keeping first-appearance order. -/
def buildFinalHierarchy (l : List ProcessedEntry) : List ProcessedEntry :=
  l.foldl (fun acc t =>
    match attachChildren t.data.parentUUID t acc with
    | some acc2 => acc2
    | none => acc ++ [t]) []

/-- Embeds `ProcessEntries` of the processor source (phases whose code is not
under src are modelled from the spec — see each phase function).  `ord` is
the enumeration order the sidechain phase's `for range entryMap` loops use; a
Go run may use any permutation of the map's keys, so it is an explicit
argument. -/
def ProcessEntries (entries : List LogEntry) (ord : List GoStr) : List ProcessedEntry :=
  let h0 := processAllEntries entries
  let m := matchToolCallsWithResults h0
  let h2 := processSidechainConversations (h0.length + 1) ord m.1
  let roots := (getRootEntries h2 m.2).filterMap (materializeEntry h2 (h2.length + 1))
  buildFinalHierarchy (linkCommandOutputs
    ((roots.map calculateTokensForEntry).map checkMissingToolResults))

mutual
/-- Depth-first UUID listing of a materialised entry (tool-call results, task
entries, then children — any structural difference in entry order shows up
here). -/
def entryUUIDs : ProcessedEntry → List GoStr
  | .mk d tcs ch => d.uuid :: (toolCallUUIDs tcs ++ entryListUUIDs ch)
def toolCallUUIDs : List ToolCall → List GoStr
  | [] => []
  | .mk _ res tes :: rest =>
    (match res with
     | none => []
     | some r => entryUUIDs r) ++ entryListUUIDs tes ++ toolCallUUIDs rest
def entryListUUIDs : List ProcessedEntry → List GoStr
  | [] => []
  | e :: rest => entryUUIDs e ++ entryListUUIDs rest
end

/-- Depth-first UUID listing of a materialised forest. -/
def forestUUIDs (l : List ProcessedEntry) : List GoStr :=
  entryListUUIDs l

/-- Concrete inputs used by witnesses and counterexamples: a Task tool-use
block. -/
def cexTaskBlock : ContentBlock := .toolUse ("t1").toList taskToolName []

def cexMsgR1 : Message := { role := roleAssistant, content := .blocks [cexTaskBlock] }

def cexR1 : LogEntry :=
  { uuid := ("r1").toList,
    timestamp := ("2024-01-01T10:00:00Z").toList,
    message := some cexMsgR1 }

def cexMsgS1 : Message := { role := roleUser, content := .str ("hi").toList }

def cexS1 : LogEntry :=
  { uuid := ("s1").toList,
    isSidechain := true,
    agentID := ("A").toList,
    timestamp := ("2024-01-01T10:00:01Z").toList,
    message := some cexMsgS1 }

def cexMsgX1 : Message := { role := roleAssistant, content := .str ("a").toList }

def cexX1 : LogEntry :=
  { uuid := ("x1").toList,
    isSidechain := true,
    parentUUID := some (("s1").toList),
    agentID := ("A").toList,
    timestamp := ("2024-01-01T10:00:02Z").toList,
    message := some cexMsgX1 }

def cexMsgY1 : Message := { role := roleAssistant, content := .str ("b").toList }

def cexY1 : LogEntry :=
  { uuid := ("y1").toList,
    isSidechain := true,
    parentUUID := some (("s1").toList),
    agentID := ("A").toList,
    timestamp := ("2024-01-01T10:00:03Z").toList,
    message := some cexMsgY1 }

/-- One session: a Task call on the main chain and a three-entry sidechain. -/
def cexEntries : List LogEntry := [cexR1, cexS1, cexX1, cexY1]

/-- One admissible enumeration order of the entry map. -/
def cexOrd1 : List GoStr := [("r1").toList, ("s1").toList, ("x1").toList, ("y1").toList]

/-- Another admissible enumeration order of the same map. -/
def cexOrd2 : List GoStr := [("r1").toList, ("s1").toList, ("y1").toList, ("x1").toList]

/-- Witness map for the fallback path: a sidechain root, a child reachable
from it, and an entry of the same agent whose parent link dangles. -/
def wS1 : Node :=
  { data :=
    { uuid := ("s1").toList,
      agentID := ("A").toList,
      isSidechain := true,
      rawTimestamp := ("t3").toList } }

def wX : Node :=
  { data :=
    { uuid := ("x0").toList,
      parentUUID := ("s1").toList,
      agentID := ("A").toList,
      isSidechain := true,
      rawTimestamp := ("t2").toList } }

def wY : Node :=
  { data :=
    { uuid := ("y0").toList,
      parentUUID := ("zz").toList,
      agentID := ("A").toList,
      isSidechain := true,
      rawTimestamp := ("t1").toList } }

def wHeap : Heap := [wS1, wX, wY]

def wOrd : List GoStr := [("s1").toList, ("x0").toList, ("y0").toList]

/-- Witness map for the empty-agent path: the same shape with empty agent
identifiers. -/
def wE1 : Node :=
  { data :=
    { uuid := ("e1").toList,
      isSidechain := true,
      rawTimestamp := ("t1").toList } }

def wE2 : Node :=
  { data :=
    { uuid := ("e2").toList,
      parentUUID := ("zz").toList,
      isSidechain := true,
      rawTimestamp := ("t2").toList } }

def wEHeap : Heap := [wE1, wE2]

def wEOrd : List GoStr := [("e1").toList, ("e2").toList]

/-- Unparsable-payload record for the transformer claims. -/
def cexC3 : LogEntry :=
  { uuid := ("u1").toList,
    timestamp := ("2024-01-01T10:00:00Z").toList,
    message := none }

/-- Witness entries for the command-output linker: a command message,
a user entry carrying a stdout block, and one whose stdout block is never
closed. -/
def wCmd : ProcessedEntry :=
  .mk { uuid := ("c1").toList, cmd := { isCommandMessage := true } } [] []

def wOut : ProcessedEntry :=
  .mk { uuid := ("c2").toList,
        role := roleUser,
        content := ("<local-command-stdout>ok</local-command-stdout>").toList } [] []

def wOutBad : ProcessedEntry :=
  .mk { uuid := ("c3").toList,
        role := roleUser,
        content := ("<local-command-stdout>oops").toList } [] []

theorem entryTotalOk_setTotal (d : EntryData) : entryTotalOk (setTotal d) = true := by
  simp [entryTotalOk, setTotal]

mutual
theorem tokensOk_calc : ∀ e, tokensOk (calculateTokensForEntry e) = true
  | .mk d tcs ch => by
    simp [calculateTokensForEntry, tokensOk, entryTotalOk_setTotal, tokensOkToolCalls_calc tcs]
theorem tokensOkToolCalls_calc : ∀ l, tokensOkToolCalls (calcToolCallList l) = true
  | [] => rfl
  | tc :: rest => by
    simp [calcToolCallList, tokensOkToolCalls, tokensOkToolCall_calc tc,
      tokensOkToolCalls_calc rest]
theorem tokensOkToolCall_calc : ∀ tc, tokensOkToolCall (calcToolCall tc) = true
  | .mk td res tes => by
    cases res with
    | none => simp [calcToolCall, tokensOkToolCall, calcResult, tokensOkEntryList_calc tes]
    | some r =>
      cases r with
      | mk d tcs ch =>
        simp [calcToolCall, tokensOkToolCall, calcResult, ProcessedEntry.data,
          entryTotalOk_setTotal, tokensOkEntryList_calc tes]
theorem tokensOkEntryList_calc : ∀ l, tokensOkEntryList (calcEntryList l) = true
  | [] => rfl
  | e :: rest => by
    simp [calcEntryList, tokensOkEntryList, tokensOk_calc e, tokensOkEntryList_calc rest]
end

theorem checkTaskList_isEmpty (l : List ProcessedEntry) :
    (checkTaskList l).isEmpty = l.isEmpty := by
  cases l <;> simp [checkTaskList, List.isEmpty]

theorem toolCallFlagsOk_checkFlags (td : ToolCallData) (res : Option ProcessedEntry)
    (tes : List ProcessedEntry) :
    toolCallFlagsOk (checkFlags td res.isNone tes.isEmpty) res (checkTaskList tes) = true := by
  cases res <;> cases tes <;>
    simp [toolCallFlagsOk, checkFlags, checkTaskList, List.isEmpty] <;>
    split <;> simp_all

mutual
theorem flagsOk_check : ∀ e, flagsOk (checkMissingToolResults e) = true
  | .mk d tcs ch => by
    simp [checkMissingToolResults, flagsOk, flagsOkToolCalls_check tcs,
      flagsOkChildList_check ch]
theorem flagsOkToolCalls_check : ∀ l, flagsOkToolCalls (checkToolCallList l) = true
  | [] => rfl
  | tc :: rest => by
    simp [checkToolCallList, flagsOkToolCalls, flagsOkToolCall_check tc,
      flagsOkToolCalls_check rest]
theorem flagsOkToolCall_check : ∀ tc, flagsOkToolCall (checkToolCall tc) = true
  | .mk td res tes => by
    simp [checkToolCall, flagsOkToolCall, toolCallFlagsOk_checkFlags,
      flagsOkTaskList_check tes]
theorem flagsOkTaskList_check : ∀ l, flagsOkEntryList (checkTaskList l) = true
  | [] => rfl
  | e :: rest => by
    simp [checkTaskList, flagsOkEntryList, flagsOk_check e, flagsOkTaskList_check rest]
theorem flagsOkChildList_check : ∀ l, flagsOkEntryList (checkChildList l) = true
  | [] => rfl
  | e :: rest => by
    simp [checkChildList, flagsOkEntryList, flagsOk_check e, flagsOkChildList_check rest]
end
theorem updateNode_map_strip (h : Heap) (u : GoStr) (kids : List GoStr) :
    (updateNode h u (fun m => { m with children := kids })).map stripChildren =
      h.map stripChildren := by
  unfold updateNode
  rw [List.map_map]
  apply List.map_congr_left
  intro a _
  by_cases hc : a.data.uuid == u <;> simp [Function.comp, hc, stripChildren]

theorem buildTreeLoop_map_strip (ord : List GoStr) (att : GoStr → Bool) :
    ∀ (fuel : Nat) (h : Heap) (stack : List (GoStr × Bool)),
    ((buildTreeLoop ord att fuel h stack).1).map stripChildren = h.map stripChildren
  | 0, h, _ => rfl
  | _ + 1, h, [] => rfl
  | fuel + 1, h, (u, skip) :: stack => by
    cases hu : lookup h u with
    | none => simpa [buildTreeLoop, hu] using buildTreeLoop_map_strip ord att fuel h stack
    | some n =>
      simp only [buildTreeLoop, hu]
      rw [buildTreeLoop_map_strip ord att fuel]
      exact updateNode_map_strip h u _

theorem lookup_strip_congr : ∀ (h h' : Heap),
    h'.map stripChildren = h.map stripChildren →
    ∀ u, (lookup h' u).map stripChildren = (lookup h u).map stripChildren := by
  intro h
  induction h with
  | nil =>
    intro h' he u
    cases h' with
    | nil => rfl
    | cons a l => simp at he
  | cons a l ih =>
    intro h' he u
    cases h' with
    | nil => simp at he
    | cons b m =>
      simp only [List.map] at he
      have hb : stripChildren b = stripChildren a := (List.cons.injEq _ _ _ _ ▸ he).1
      have hm : m.map stripChildren = l.map stripChildren := (List.cons.injEq _ _ _ _ ▸ he).2
      have hdata : b.data = a.data := by
        have h2 := congrArg Node.data hb
        simpa [stripChildren] using h2
      by_cases hc : a.data.uuid == u
      · simp [lookup, List.find?, hdata, hc, hb]
      · simpa [lookup, List.find?, hdata, hc] using ih m hm u

theorem iterMap_strip_congr (h h' : Heap)
    (he : h'.map stripChildren = h.map stripChildren) (ord : List GoStr) :
    (iterMap h' ord).map stripChildren = (iterMap h ord).map stripChildren := by
  induction ord with
  | nil => rfl
  | cons u rest ih =>
    have hl := lookup_strip_congr h h' he u
    cases hl' : lookup h' u with
    | none =>
      cases hl2 : lookup h u with
      | none => simpa [iterMap, List.filterMap_cons, hl', hl2] using ih
      | some b => simp [hl', hl2] at hl
    | some a =>
      cases hl2 : lookup h u with
      | none => simp [hl', hl2] at hl
      | some b =>
        simp only [hl', hl2, Option.map_some', Option.some.injEq] at hl
        simp only [iterMap, List.filterMap_cons, hl', hl2, List.map_cons, List.cons.injEq]
        exact ⟨hl, ih⟩

theorem iterMap_data_congr (h h' : Heap)
    (he : h'.map stripChildren = h.map stripChildren) (ord : List GoStr) :
    (iterMap h' ord).map Node.data = (iterMap h ord).map Node.data := by
  have hs := iterMap_strip_congr h h' he ord
  have c1 : (iterMap h' ord).map Node.data
      = ((iterMap h' ord).map stripChildren).map Node.data := by
    rw [List.map_map]; rfl
  have c2 : (iterMap h ord).map Node.data
      = ((iterMap h ord).map stripChildren).map Node.data := by
    rw [List.map_map]; rfl
  rw [c1, c2, hs]

theorem isAttached_congr (h h' : Heap)
    (he : h'.map stripChildren = h.map stripChildren) (ord : List GoStr) (u : GoStr) :
    isAttachedToolResult h' ord u = isAttachedToolResult h ord u := by
  have hs := iterMap_strip_congr h h' he ord
  unfold isAttachedToolResult
  have a1 : ∀ (l : List Node), (l.any fun n =>
      n.data.isSidechain && n.toolCalls.any (fun tc => tc.result == some u))
      = (l.map stripChildren).any fun n =>
        n.data.isSidechain && n.toolCalls.any (fun tc => tc.result == some u) := by
    intro l
    rw [List.any_map]
    rfl
  rw [a1 (iterMap h' ord), hs, ← a1 (iterMap h ord)]

theorem dedup_eq_self : ∀ (seen : List GoStr) (l : List Node),
    (l.map (fun n => n.data.uuid)).Nodup →
    (∀ n ∈ l, ¬ n.data.uuid ∈ seen) → dedupByUUID seen l = l := by
  intro seen l
  induction l generalizing seen with
  | nil => intro _ _; rfl
  | cons n rest ih =>
    intro hnd hdisj
    have hc : seen.contains n.data.uuid = false := by
      have hn := hdisj n (List.mem_cons_self _ _)
      simpa using hn
    rw [dedupByUUID, hc]
    simp only [Bool.false_eq_true, if_false]
    congr 1
    apply ih
    · simpa using (List.nodup_cons.mp (by simpa using hnd)).2
    · intro m hm
      simp only [List.mem_cons]
      rintro (he | hseen)
      · have hne : n.data.uuid ∉ rest.map (fun x => x.data.uuid) :=
          (List.nodup_cons.mp (by simpa using hnd)).1
        exact hne (he ▸ List.mem_map_of_mem _ hm)
      · exact hdisj m (List.mem_cons_of_mem _ hm) hseen

theorem sorted_sortByRawTimestamp (l : List Node) :
    List.Sorted nodeLe (sortByRawTimestamp l) := by
  haveI : IsTotal Node nodeLe := ⟨fun a b => le_total _ _⟩
  haveI : IsTrans Node nodeLe := ⟨fun a b c hab hbc => le_trans hab hbc⟩
  exact List.sorted_insertionSort nodeLe l

theorem perm_sortByRawTimestamp (l : List Node) : (sortByRawTimestamp l).Perm l :=
  List.perm_insertionSort nodeLe l

theorem length_filter_split (L : List EntryData) (A B : EntryData → Bool) :
    (L.filter (fun d => A d && !(B d))).length + (L.filter (fun d => A d && B d)).length
      = (L.filter A).length := by
  induction L with
  | nil => rfl
  | cons d rest ih =>
    by_cases hA : A d <;> by_cases hB : B d <;>
      simp [List.filter_cons, hA, hB] <;> omega

theorem buildTreeLoop_skipOnly (ord : List GoStr) (att : GoStr → Bool) (fuel : Nat)
    (h : Heap) (u : GoStr) (stack : List (GoStr × Bool)) (n : Node)
    (hu : lookup h u = some n) :
    (buildTreeLoop ord att (fuel + 1) h ((u, true) :: stack)).1 =
      (buildTreeLoop ord att (fuel + 1) h ((u, false) :: stack)).1 ∧
    (buildTreeLoop ord att (fuel + 1) h ((u, false) :: stack)).2 =
      u :: (buildTreeLoop ord att (fuel + 1) h ((u, true) :: stack)).2 := by
  simp [buildTreeLoop, hu]

theorem collect_emptyAgent (fuel : Nat) (h : Heap) (ord : List GoStr) (root : GoStr)
    (rootN : Node) (hr : lookup h root = some rootN) (ha : rootN.data.agentID = []) :
    collectSidechainEntries fuel h ord root =
      buildTree ord (fun u => isAttachedToolResult h ord u) fuel h root := by
  simp [collectSidechainEntries, hr, ha, buildTree]

theorem filter_data_length (l : List Node) (p : EntryData → Bool) :
    (l.filter (fun e => p e.data)).length = ((l.map Node.data).filter p).length := by
  rw [List.filter_map, List.length_map]
  rfl

theorem filter_data_map (l : List Node) (p : EntryData → Bool) :
    (l.filter (fun e => p e.data)).map Node.data = (l.map Node.data).filter p := by
  rw [List.filter_map]
  rfl

theorem collect_fallback (fuel : Nat) (h : Heap) (ord : List GoStr) (root : GoStr)
    (rootN : Node) (hr : lookup h root = some rootN)
    (hagent : rootN.data.agentID ≠ [])
    (hnodup : ((iterMap h ord).map (fun n => n.data.uuid)).Nodup)
    (hcov : (buildTree ord (fun u => isAttachedToolResult h ord u) fuel h root).2.length <
      (((iterMap h ord).map Node.data).filter (agentSidechain rootN.data.agentID)).length) :
    ∃ nodes : List Node,
      (collectSidechainEntries fuel h ord root).2 = nodes.map (fun n => n.data.uuid) ∧
      (nodes.map Node.data).Perm
        (((iterMap h ord).map Node.data).filter (fallbackKeeps h ord rootN.data.agentID)) ∧
      List.Sorted nodeLe nodes ∧
      (nodes.map (fun n => n.data.uuid)).Nodup ∧
      nodes.length + (((iterMap h ord).map Node.data).filter
          (fun d => agentSidechain rootN.data.agentID d && consumedToolResult h ord d)).length
        = (((iterMap h ord).map Node.data).filter (agentSidechain rootN.data.agentID)).length := by
  have hempty : rootN.data.agentID.isEmpty = false := by
    cases h' : rootN.data.agentID with
    | nil => exact absurd h' hagent
    | cons a t => rfl
  have hstrip : ((buildTree ord (fun u => isAttachedToolResult h ord u) fuel h root).1).map
      stripChildren = h.map stripChildren := buildTreeLoop_map_strip _ _ fuel h _
  have hdata : (iterMap (buildTree ord (fun u => isAttachedToolResult h ord u) fuel h root).1
      ord).map Node.data = (iterMap h ord).map Node.data :=
    iterMap_data_congr h _ hstrip ord
  have hcond : (buildTree ord (fun u => isAttachedToolResult h ord u) fuel h root).2.length <
      ((iterMap (buildTree ord (fun u => isAttachedToolResult h ord u) fuel h root).1 ord).filter
        (fun e => e.data.agentID == rootN.data.agentID && e.data.isSidechain)).length := by
    have e1 := filter_data_length
      (iterMap (buildTree ord (fun u => isAttachedToolResult h ord u) fuel h root).1 ord)
      (agentSidechain rootN.data.agentID)
    rw [hdata] at e1
    have e2 : (fun e : Node => e.data.agentID == rootN.data.agentID && e.data.isSidechain)
        = (fun e : Node => agentSidechain rootN.data.agentID e.data) := by
      funext e; rfl
    rw [e2, e1]
    exact hcov
  have hout : (collectSidechainEntries fuel h ord root).2
      = (sortByRawTimestamp (dedupByUUID []
          ((iterMap (buildTree ord (fun u => isAttachedToolResult h ord u) fuel h root).1
            ord).filter (fun e => e.data.agentID == rootN.data.agentID && e.data.isSidechain &&
              !(e.data.isToolResult && isAttachedToolResult h ord e.data.uuid))))).map
          (fun n => n.data.uuid) := by
    simp only [buildTree] at hcond
    simp only [collectSidechainEntries, hr, hempty, Bool.false_eq_true, if_false, buildTree]
    rw [if_pos hcond]
  have predEq : (fun e : Node => e.data.agentID == rootN.data.agentID && e.data.isSidechain &&
      !(e.data.isToolResult && isAttachedToolResult h ord e.data.uuid))
      = (fun e : Node => fallbackKeeps h ord rootN.data.agentID e.data) := by
    funext e
    simp [fallbackKeeps, agentSidechain, consumedToolResult, Bool.and_assoc]
  rw [predEq] at hout
  have cmap : (((iterMap (buildTree ord (fun u => isAttachedToolResult h ord u) fuel h root).1
      ord).filter (fun e => fallbackKeeps h ord rootN.data.agentID e.data)).map Node.data)
      = ((iterMap h ord).map Node.data).filter (fallbackKeeps h ord rootN.data.agentID) := by
    rw [filter_data_map, hdata]
  have cnodup : ((((iterMap (buildTree ord (fun u => isAttachedToolResult h ord u) fuel h
      root).1 ord).filter (fun e => fallbackKeeps h ord rootN.data.agentID e.data))).map
        (fun n => n.data.uuid)).Nodup := by
    have e3 : ∀ l : List Node, (l.map (fun n => n.data.uuid))
        = (l.map Node.data).map EntryData.uuid := by
      intro l
      rw [List.map_map]
      rfl
    rw [e3, cmap]
    apply List.Nodup.sublist (List.Sublist.map _ (List.filter_sublist _))
    rw [← e3]
    exact hnodup
  have hdedup : dedupByUUID [] ((iterMap (buildTree ord
      (fun u => isAttachedToolResult h ord u) fuel h root).1 ord).filter
        (fun e => fallbackKeeps h ord rootN.data.agentID e.data))
      = (iterMap (buildTree ord (fun u => isAttachedToolResult h ord u) fuel h root).1
          ord).filter (fun e => fallbackKeeps h ord rootN.data.agentID e.data) :=
    dedup_eq_self [] _ cnodup (by simp)
  have hperm : (sortByRawTimestamp (dedupByUUID [] ((iterMap (buildTree ord
      (fun u => isAttachedToolResult h ord u) fuel h root).1 ord).filter
        (fun e => fallbackKeeps h ord rootN.data.agentID e.data)))).Perm
      ((iterMap (buildTree ord (fun u => isAttachedToolResult h ord u) fuel h root).1
        ord).filter (fun e => fallbackKeeps h ord rootN.data.agentID e.data)) := by
    rw [hdedup]
    exact perm_sortByRawTimestamp _
  refine ⟨_, hout, ?_, sorted_sortByRawTimestamp _, ?_, ?_⟩
  · have hp := hperm.map Node.data
    rw [cmap] at hp
    exact hp
  · exact (hperm.map (fun n => n.data.uuid)).nodup_iff.mpr cnodup
  · have hlen : (sortByRawTimestamp (dedupByUUID [] ((iterMap (buildTree ord
        (fun u => isAttachedToolResult h ord u) fuel h root).1 ord).filter
          (fun e => fallbackKeeps h ord rootN.data.agentID e.data)))).length
        = (((iterMap h ord).map Node.data).filter
            (fallbackKeeps h ord rootN.data.agentID)).length := by
      rw [hperm.length_eq, ← cmap, List.length_map]
    rw [hlen]
    have hfk : fallbackKeeps h ord rootN.data.agentID
        = fun d => agentSidechain rootN.data.agentID d && !(consumedToolResult h ord d) := rfl
    rw [hfk]
    exact length_filter_split ((iterMap h ord).map Node.data)
      (agentSidechain rootN.data.agentID) (consumedToolResult h ord)

theorem setContent_isCommandWithStdout (e x : ProcessedEntry) (c : GoStr) :
    isCommandWithStdout (setContent e c) x = isCommandWithStdout e x := by
  cases e
  rfl

theorem linkLoop_length (cur : ProcessedEntry) (l : List ProcessedEntry) :
    (linkLoop cur l).length = l.length + 1 := by
  induction l generalizing cur with
  | nil => rfl
  | cons next rest ih =>
    by_cases hc : isCommandWithStdout cur next <;> simp [linkLoop, hc, ih]

theorem linkLoop_head (cur : ProcessedEntry) (l : List ProcessedEntry) :
    (((linkLoop cur l).getD 0 defaultEntry).data.content = cur.data.content) ∧
    (((linkLoop cur l).getD 0 defaultEntry).data.uuid = cur.data.uuid) := by
  cases l with
  | nil => exact ⟨rfl, rfl⟩
  | cons next rest =>
    by_cases hc : isCommandWithStdout cur next <;>
      cases cur <;> simp [linkLoop, hc, setCommandOutput, ProcessedEntry.data]

theorem linkLoop_pair : ∀ (l : List ProcessedEntry) (cur : ProcessedEntry) (i : Nat),
    i + 1 < (cur :: l).length →
    isCommandWithStdout ((cur :: l).getD i defaultEntry) ((cur :: l).getD (i + 1) defaultEntry)
      = true →
    (((linkLoop cur l).getD i defaultEntry).data.cmd.commandOutput =
      extractXMLContent ((cur :: l).getD (i + 1) defaultEntry).data.content tagCommandStdout) ∧
    (((linkLoop cur l).getD (i + 1) defaultEntry).data.content = []) ∧
    (((linkLoop cur l).getD (i + 1) defaultEntry).data.uuid =
      ((cur :: l).getD (i + 1) defaultEntry).data.uuid) := by
  intro l
  induction l with
  | nil =>
    intro cur i hlen hcond
    simp at hlen
  | cons next rest ih =>
    intro cur i hlen hcond
    cases i with
    | zero =>
      simp only [List.getD_cons_zero, List.getD_cons_succ] at hcond
      simp only [linkLoop, hcond, if_true]
      refine ⟨?_, ?_, ?_⟩
      · cases cur; simp [setCommandOutput, ProcessedEntry.data, List.getD_cons_zero]
      · have hh := (linkLoop_head (setContent next []) rest).1
        cases next
        simpa [List.getD_cons_succ, setContent, ProcessedEntry.data] using hh
      · have hh := (linkLoop_head (setContent next []) rest).2
        cases next
        simpa [List.getD_cons_succ, setContent, ProcessedEntry.data] using hh
    | succ j =>
      have hlen2 : j + 1 < (next :: rest).length := by
        simpa using Nat.lt_of_succ_lt_succ hlen
      by_cases hc : isCommandWithStdout cur next
      · -- the previous pair fired: next is replaced by a blanked copy
        have hcond2 : isCommandWithStdout ((setContent next [] :: rest).getD j defaultEntry)
            ((setContent next [] :: rest).getD (j + 1) defaultEntry) = true := by
          cases j with
          | zero =>
            simpa [List.getD_cons_zero, List.getD_cons_succ,
              setContent_isCommandWithStdout] using hcond
          | succ k =>
            simpa [List.getD_cons_succ] using hcond
        have := ih (setContent next []) j (by simpa using hlen2) hcond2
        simp only [linkLoop, hc, if_true, List.getD_cons_succ]
        cases j with
        | zero =>
          simpa [List.getD_cons_zero, List.getD_cons_succ, setContent,
            ProcessedEntry.data] using this
        | succ k =>
          simpa [List.getD_cons_succ] using this
      · have hcond2 : isCommandWithStdout ((next :: rest).getD j defaultEntry)
            ((next :: rest).getD (j + 1) defaultEntry) = true := by
          simpa [List.getD_cons_succ] using hcond
        have := ih next j hlen2 hcond2
        simp only [linkLoop, hc, if_false, List.getD_cons_succ]
        simpa [List.getD_cons_succ] using this

theorem strContains_cons (a : Char) (t p : GoStr) (h : strContains t p = true) :
    strContains (a :: t) p = true := by
  by_cases hp : p.isPrefixOf (a :: t)
  · simp [strContains, strFind, hp]
  · simp [strContains, strFind, hp]
    simpa [strContains] using h

theorem strContains_drop : ∀ (s : Nat) (l p : GoStr),
    strContains (l.drop s) p = true → strContains l p = true := by
  intro s
  induction s with
  | zero => intro l p h; simpa using h
  | succ n ih =>
    intro l p h
    cases l with
    | nil => simpa using h
    | cons a t => exact strContains_cons a t p (ih t p (by simpa using h))

theorem extractXMLContent_of_noEnd (text tag : GoStr)
    (hne : strContains text ('<' :: '/' :: (tag ++ ['>'])) = false) :
    extractXMLContent text tag = [] := by
  cases h1 : strFind text ('<' :: (tag ++ ['>'])) with
  | none => simp only [extractXMLContent, h1]
  | some i =>
    cases h2 : strFind (text.drop (i + ('<' :: (tag ++ ['>'])).length))
        ('<' :: '/' :: (tag ++ ['>'])) with
    | none => simp only [extractXMLContent, h1, h2]
    | some e =>
      exfalso
      have hc : strContains (text.drop (i + ('<' :: (tag ++ ['>'])).length))
          ('<' :: '/' :: (tag ++ ['>'])) = true := by
        unfold strContains
        rw [h2]
        rfl
      have hcc := strContains_drop _ text _ hc
      rw [hne] at hcc
      exact Bool.false_ne_true hcc

/-- C1: after the token-aggregation pass, every entry the pass reaches — the
root entry itself, each tool call's attached result, and every entry of each
tool call's nested TaskEntries forest, recursively — has `TotalTokens` equal
to its own `InputTokens + CacheReadTokens + CacheCreationTokens` (output
tokens not included), and an attached result's total is given by that same
formula over the result entry's own fields. -/
theorem claim_c1_token_totals (e : ProcessedEntry) :
    tokensOk (calculateTokensForEntry e) = true :=
  tokensOk_calc e

/-- C2: for a sidechain root with a non-empty agent identifier, when the
primary traversal yields fewer entries than the map holds for that agent,
`collectSidechainEntries` discards the traversal and returns exactly the
agent's sidechain entries minus the consumed tool results, deduplicated by
identifier and sorted by ascending raw timestamp; its count is the expected
count minus the consumed tool results of that agent, hence at least the
expected count minus all consumed tool results. -/
theorem claim_c2_fallback (fuel : Nat) (h : Heap) (ord : List GoStr) (root : GoStr)
    (rootN : Node) (hr : lookup h root = some rootN)
    (hagent : rootN.data.agentID ≠ [])
    (hnodup : ((iterMap h ord).map (fun n => n.data.uuid)).Nodup)
    (hcov : (buildTree ord (fun u => isAttachedToolResult h ord u) fuel h root).2.length <
      (((iterMap h ord).map Node.data).filter (agentSidechain rootN.data.agentID)).length) :
    ∃ nodes : List Node,
      (collectSidechainEntries fuel h ord root).2 = nodes.map (fun n => n.data.uuid) ∧
      (nodes.map Node.data).Perm
        (((iterMap h ord).map Node.data).filter (fallbackKeeps h ord rootN.data.agentID)) ∧
      List.Sorted nodeLe nodes ∧
      (nodes.map (fun n => n.data.uuid)).Nodup ∧
      nodes.length + (((iterMap h ord).map Node.data).filter
          (fun d => agentSidechain rootN.data.agentID d && consumedToolResult h ord d)).length
        = (((iterMap h ord).map Node.data).filter (agentSidechain rootN.data.agentID)).length :=
  collect_fallback fuel h ord root rootN hr hagent hnodup hcov

theorem claim_c2_fallback_witness :
    lookup wHeap (("s1").toList) = some wS1 ∧
    wS1.data.agentID ≠ [] ∧
    ((iterMap wHeap wOrd).map (fun n => n.data.uuid)).Nodup ∧
    (buildTree wOrd (fun u => isAttachedToolResult wHeap wOrd u) 9 wHeap
      (("s1").toList)).2.length <
      (((iterMap wHeap wOrd).map Node.data).filter (agentSidechain wS1.data.agentID)).length ∧
    (∃ nodes : List Node,
      (collectSidechainEntries 9 wHeap wOrd (("s1").toList)).2 =
        nodes.map (fun n => n.data.uuid) ∧
      (nodes.map Node.data).Perm
        (((iterMap wHeap wOrd).map Node.data).filter
          (fallbackKeeps wHeap wOrd wS1.data.agentID)) ∧
      List.Sorted nodeLe nodes ∧
      (nodes.map (fun n => n.data.uuid)).Nodup ∧
      nodes.length + (((iterMap wHeap wOrd).map Node.data).filter
          (fun d => agentSidechain wS1.data.agentID d && consumedToolResult wHeap wOrd d)).length
        = (((iterMap wHeap wOrd).map Node.data).filter
            (agentSidechain wS1.data.agentID)).length) :=
  ⟨by decide, by decide, by decide, by decide,
    claim_c2_fallback 9 wHeap wOrd (("s1").toList) wS1 (by decide) (by decide)
      (by decide) (by decide)⟩

/-- C3 (counterexample): a record whose message payload fails to parse is
still emitted with empty content, but its token count is the length estimate
of that empty content — zero, not a positive estimate of the raw serialized
record's length. -/
theorem claim_c3_counterexample :
    (processEntry cexC3).data.uuid = cexC3.uuid ∧
    (processEntry cexC3).data.content = [] ∧
    ¬ 0 < (processEntry cexC3).data.tokens.tokenCount := by
  refine ⟨by decide, by decide, by decide⟩

/-- C3 (amended): on parse failure the record is still emitted (same UUID)
with empty content, and its token count is the length estimate applied to
the entry's (still empty) content — that is, zero; it is not derived from
the raw serialized record. -/
theorem claim_c3_amended (e : LogEntry) (hm : e.message = none) :
    (processEntry e).data.uuid = e.uuid ∧
    (processEntry e).data.content = [] ∧
    (processEntry e).data.tokens.tokenCount =
      estimateTokens (processEntry e).data.content ∧
    (processEntry e).data.tokens.tokenCount = 0 := by
  simp [processEntry, hm, estimateTokens, charsPerToken]

theorem claim_c3_amended_witness :
    cexC3.message = none ∧
    ((processEntry cexC3).data.uuid = cexC3.uuid ∧
     (processEntry cexC3).data.content = [] ∧
     (processEntry cexC3).data.tokens.tokenCount =
       estimateTokens (processEntry cexC3).data.content ∧
     (processEntry cexC3).data.tokens.tokenCount = 0) :=
  ⟨rfl, claim_c3_amended cexC3 rfl⟩

/-- C4 (counterexample): running the reconstruction twice on the same input
sequence does not always produce a structurally identical forest — two
admissible enumeration orders of the entry map (Go fixes none) give forests
whose sidechain children appear in different orders. -/
theorem claim_c4_counterexample :
    cexOrd1.Perm (cexEntries.map (fun e => e.uuid)) ∧
    cexOrd2.Perm (cexEntries.map (fun e => e.uuid)) ∧
    ProcessEntries cexEntries cexOrd1 ≠ ProcessEntries cexEntries cexOrd2 := by
  refine ⟨by decide, by decide, fun hEq => ?_⟩
  have h2 := congrArg forestUUIDs hEq
  revert h2
  decide

/-- C4 (amended): the reconstruction is deterministic once the map
enumeration order is fixed — two runs over an identical input sequence that
enumerate the entry map in the same order yield identical forests. -/
theorem claim_c4_amended (entries : List LogEntry) (o1 o2 : List GoStr)
    (h : o1 = o2) :
    ProcessEntries entries o1 = ProcessEntries entries o2 := by
  rw [h]

theorem claim_c4_amended_witness :
    cexOrd1 = cexOrd1 ∧
    ProcessEntries cexEntries cexOrd1 = ProcessEntries cexEntries cexOrd1 :=
  ⟨rfl, claim_c4_amended cexEntries cexOrd1 cexOrd1 rfl⟩

/-- C5: after the flagging pass, every tool call it reaches (in the entry,
in nested task entries recursively, and in children recursively) has
`HasMissingResult` set when its result is nil, and `HasMissingSidechain`
set when it is a Task tool call with no task entries. -/
theorem claim_c5_missing_flags (e : ProcessedEntry) :
    flagsOk (checkMissingToolResults e) = true :=
  flagsOk_check e

/-- C6: when entry `i` is a command message and entry `i+1` is a user entry
whose content carries the stdout tag, the linker keeps the list length,
stores in entry `i`'s `CommandOutput` the text between the stdout tags of
entry `i+1`'s original content, and blanks entry `i+1`'s content while the
entry itself (same UUID) stays in the structure. -/
theorem claim_c6_link_outputs (l : List ProcessedEntry) (i : Nat)
    (hlen : i + 1 < l.length)
    (hcond : isCommandWithStdout (l.getD i defaultEntry) (l.getD (i + 1) defaultEntry)
      = true) :
    (linkCommandOutputs l).length = l.length ∧
    ((linkCommandOutputs l).getD i defaultEntry).data.cmd.commandOutput =
      extractXMLContent ((l.getD (i + 1) defaultEntry).data.content) tagCommandStdout ∧
    ((linkCommandOutputs l).getD (i + 1) defaultEntry).data.content = [] ∧
    ((linkCommandOutputs l).getD (i + 1) defaultEntry).data.uuid =
      (l.getD (i + 1) defaultEntry).data.uuid := by
  cases l with
  | nil => simp at hlen
  | cons cur rest =>
    have hp := linkLoop_pair rest cur i hlen hcond
    exact ⟨by simp [linkCommandOutputs, linkLoop_length], hp.1, hp.2.1, hp.2.2⟩

theorem claim_c6_link_outputs_witness :
    0 + 1 < [wCmd, wOut].length ∧
    isCommandWithStdout ([wCmd, wOut].getD 0 defaultEntry)
      ([wCmd, wOut].getD 1 defaultEntry) = true ∧
    ((linkCommandOutputs [wCmd, wOut]).length = [wCmd, wOut].length ∧
     ((linkCommandOutputs [wCmd, wOut]).getD 0 defaultEntry).data.cmd.commandOutput =
       extractXMLContent (([wCmd, wOut].getD 1 defaultEntry).data.content)
         tagCommandStdout ∧
     ((linkCommandOutputs [wCmd, wOut]).getD 1 defaultEntry).data.content = [] ∧
     ((linkCommandOutputs [wCmd, wOut]).getD 1 defaultEntry).data.uuid =
       ([wCmd, wOut].getD 1 defaultEntry).data.uuid) :=
  ⟨by decide, by decide, claim_c6_link_outputs [wCmd, wOut] 0 (by decide) (by decide)⟩

/-- C7: the transformer's timestamp formatting is total — when the raw string
parses as RFC 3339 it is reformatted to the wall-clock display form, and
otherwise the original string passes through unchanged. -/
theorem claim_c7_timestamp (ts : GoStr) :
    (∀ t, parseRFC3339 ts = some t → formatTimestamp ts = formatHMS t) ∧
    (parseRFC3339 ts = none → formatTimestamp ts = ts) := by
  constructor
  · intro t ht
    simp [formatTimestamp, ht]
  · intro hn
    simp [formatTimestamp, hn]

theorem claim_c7_timestamp_witness :
    (parseRFC3339 (("2024-01-01T10:02:03Z").toList) =
      some { year := 2024, month := 1, day := 1, hour := 10, minute := 2, second := 3 } ∧
     formatTimestamp (("2024-01-01T10:02:03Z").toList) =
       formatHMS { year := 2024, month := 1, day := 1, hour := 10, minute := 2, second := 3 }) ∧
    (parseRFC3339 (("oops").toList) = none ∧
     formatTimestamp (("oops").toList) = ("oops").toList) :=
  ⟨⟨by decide, (claim_c7_timestamp (("2024-01-01T10:02:03Z").toList)).1 _ (by decide)⟩,
   ⟨by decide, (claim_c7_timestamp (("oops").toList)).2 (by decide)⟩⟩

/-- C8: in the primary sidechain traversal, the skip flag of a visited entry
only removes that entry from the output — the heap mutations (discovered
children) and the rest of the traversal, including everything below the
skipped entry, are identical; so excluding an entry never removes its
descendants from the traversal result. -/
theorem claim_c8_skip_preserves_descendants (ord : List GoStr) (att : GoStr → Bool)
    (fuel : Nat) (h : Heap) (u : GoStr) (stack : List (GoStr × Bool)) (n : Node)
    (hu : lookup h u = some n) :
    (buildTreeLoop ord att (fuel + 1) h ((u, true) :: stack)).1 =
      (buildTreeLoop ord att (fuel + 1) h ((u, false) :: stack)).1 ∧
    (buildTreeLoop ord att (fuel + 1) h ((u, false) :: stack)).2 =
      u :: (buildTreeLoop ord att (fuel + 1) h ((u, true) :: stack)).2 :=
  buildTreeLoop_skipOnly ord att fuel h u stack n hu

theorem claim_c8_skip_witness :
    lookup wHeap (("s1").toList) = some wS1 ∧
    ((buildTreeLoop wOrd (fun _ => true) 9 wHeap [((("s1").toList), true)]).1 =
      (buildTreeLoop wOrd (fun _ => true) 9 wHeap [((("s1").toList), false)]).1 ∧
     (buildTreeLoop wOrd (fun _ => true) 9 wHeap [((("s1").toList), false)]).2 =
      (("s1").toList) ::
        (buildTreeLoop wOrd (fun _ => true) 9 wHeap [((("s1").toList), true)]).2) :=
  ⟨by decide,
    claim_c8_skip_preserves_descendants wOrd (fun _ => true) 8 wHeap (("s1").toList) []
      wS1 (by decide)⟩

/-- C9: for a sidechain root whose agent identifier is empty,
`collectSidechainEntries` returns the primary traversal result unchanged —
the coverage check and the timestamp-ordered fallback run only for non-empty
agent identifiers, even when the traversal misses entries. -/
theorem claim_c9_empty_agent (fuel : Nat) (h : Heap) (ord : List GoStr) (root : GoStr)
    (rootN : Node) (hr : lookup h root = some rootN) (ha : rootN.data.agentID = []) :
    collectSidechainEntries fuel h ord root =
      buildTree ord (fun u => isAttachedToolResult h ord u) fuel h root :=
  collect_emptyAgent fuel h ord root rootN hr ha

theorem claim_c9_empty_agent_witness :
    lookup wEHeap (("e1").toList) = some wE1 ∧
    wE1.data.agentID = [] ∧
    (buildTree wEOrd (fun u => isAttachedToolResult wEHeap wEOrd u) 9 wEHeap
      (("e1").toList)).2.length <
      ((iterMap wEHeap wEOrd).filter
        (fun e => e.data.agentID == wE1.data.agentID && e.data.isSidechain)).length ∧
    collectSidechainEntries 9 wEHeap wEOrd (("e1").toList) =
      buildTree wEOrd (fun u => isAttachedToolResult wEHeap wEOrd u) 9 wEHeap
        (("e1").toList) :=
  ⟨by decide, by decide, by decide,
    claim_c9_empty_agent 9 wEHeap wEOrd (("e1").toList) wE1 (by decide) (by decide)⟩

/-- C10: when adjacent entries satisfy the linking condition (the opening
stdout tag is present) but the closing stdout tag is absent from entry
`i+1`'s content, the linker stores the empty string as entry `i`'s captured
output and still blanks entry `i+1`'s content, dropping the partial stdout
text from both entries. -/
theorem claim_c10_missing_close (l : List ProcessedEntry) (i : Nat)
    (hlen : i + 1 < l.length)
    (hcond : isCommandWithStdout (l.getD i defaultEntry) (l.getD (i + 1) defaultEntry)
      = true)
    (hne : strContains ((l.getD (i + 1) defaultEntry).data.content)
      ('<' :: '/' :: (tagCommandStdout ++ ['>'])) = false) :
    ((linkCommandOutputs l).getD i defaultEntry).data.cmd.commandOutput = [] ∧
    ((linkCommandOutputs l).getD (i + 1) defaultEntry).data.content = [] := by
  cases l with
  | nil => simp at hlen
  | cons cur rest =>
    have hp := linkLoop_pair rest cur i hlen hcond
    refine ⟨?_, hp.2.1⟩
    rw [show linkCommandOutputs (cur :: rest) = linkLoop cur rest from rfl, hp.1]
    exact extractXMLContent_of_noEnd _ _ hne

theorem claim_c10_missing_close_witness :
    0 + 1 < [wCmd, wOutBad].length ∧
    isCommandWithStdout ([wCmd, wOutBad].getD 0 defaultEntry)
      ([wCmd, wOutBad].getD 1 defaultEntry) = true ∧
    strContains (([wCmd, wOutBad].getD 1 defaultEntry).data.content)
      ('<' :: '/' :: (tagCommandStdout ++ ['>'])) = false ∧
    (((linkCommandOutputs [wCmd, wOutBad]).getD 0 defaultEntry).data.cmd.commandOutput = [] ∧
     ((linkCommandOutputs [wCmd, wOutBad]).getD 1 defaultEntry).data.content = []) :=
  ⟨by decide, by decide, by decide,
    claim_c10_missing_close [wCmd, wOutBad] 0 (by decide) (by decide) (by decide)⟩
